import Mathlib

/-!
Verification of the event-correlation and enrichment core of go-audit
(`parser.go`), shallowly embedded in Lean 4.

Go strings / byte slices are modelled as `List Char` (the audit payloads
are byte strings; each Go byte is one `Char`).  Functions that can hit a
Go runtime panic (slice index out of range) return `Option`, with `none`
marking the panic.  The two injected collaborators are passed as
parameters: `resolve : Str -> Str` models `getUsername` (the identity
resolver, parser.go:232) and `cGet : Str -> Option Str` models `c.Get`
(the external network resolver; `some host` is the `err == nil` case).
-/

namespace GoAudit

abbrev Str := List Char

/-- Model of Go `strings.Index` / `bytes.Index`: index of the first
occurrence of `needle` as a contiguous substring of `hay`, `none` for
Go's `-1`. -/
def strIndex (needle : Str) : Str → Option Nat
  | [] => if needle = [] then some 0 else none
  | x :: t =>
    if needle <+: (x :: t) then some 0
    else (strIndex needle t).map (fun n => n + 1)

/-- Model of Go `strings.IndexByte`: index of the first occurrence of the
character `c`, `none` for Go's `-1`. -/
def charIndex (c : Char) : Str → Option Nat
  | [] => none
  | x :: t => if x = c then some 0 else (charIndex c t).map (fun n => n + 1)

/-- Decimal digit run accumulator used by the `strconv.Atoi` model. -/
def digitsValAux : Str → Nat → Option Nat
  | [], acc => some acc
  | c :: rest, acc =>
    if c.isDigit then digitsValAux rest (10 * acc + (c.toNat - 48)) else none

/-- Value of a non-empty all-digit string; `none` when empty or when any
character is not a decimal digit (Go `strconv`'s ErrSyntax cases). -/
def digitsVal : Str → Option Nat
  | [] => none
  | c :: rest => if c.isDigit then digitsValAux rest (c.toNat - 48) else none

def INT64_MAX : Int := 2 ^ 63 - 1

def INT64_MIN : Int := -(2 ^ 63)

/-- Model of the value Go's `strconv.Atoi` returns when the error is
ignored (parser.go:90 discards it): 0 on a syntax error, the value
saturated to the 64-bit int range on a range error. -/
def atoi (s : Str) : Int :=
  match s with
  | [] => 0
  | c :: rest =>
    if c = '-' then
      match digitsVal rest with
      | none => 0
      | some n => max (-(n : Int)) INT64_MIN
    else if c = '+' then
      match digitsVal rest with
      | none => 0
      | some n => min (n : Int) INT64_MAX
    else
      match digitsVal s with
      | none => 0
      | some n => min (n : Int) INT64_MAX

def HEADER_MIN_LENGTH : Nat := 7

def HEADER_START_POS : Nat := 6

/-- Model of `parseAuditHeader` (parser.go:78-97).  Returns
`some (time, seq, remaining data)`; `none` marks a Go runtime panic:
`header[6:sep]` with `sep = -1` (no `:` in the header, the missing
range check of the TODO at parser.go:87) or `msg.Data[headerStop+3:]`
with `headerStop+3 > len(msg.Data)`. -/
def parseAuditHeader (data : Str) : Option (Str × Int × Str) :=
  match strIndex [')'] data with
  | none => some ([], 0, data)
  | some headerStop =>
    if headerStop < HEADER_MIN_LENGTH then some ([], 0, data)
    else
      let header := data.take headerStop
      if header.take HEADER_START_POS = "audit(".toList then
        match charIndex ':' header with
        | none => none
        | some sep =>
          if sep < HEADER_START_POS then none
          else if data.length < headerStop + 3 then none
          else
            some ((header.drop HEADER_START_POS).take (sep - HEADER_START_POS),
                  atoi (header.drop (sep + 1)),
                  data.drop (headerStop + 3))
      else some ([], 0, data)

/-- Hex value of one character, as in Go `encoding/hex`. -/
def hexVal (c : Char) : Option Nat :=
  if '0' ≤ c ∧ c ≤ '9' then some (c.toNat - 48)
  else if 'a' ≤ c ∧ c ≤ 'f' then some (c.toNat - 87)
  else if 'A' ≤ c ∧ c ≤ 'F' then some (c.toNat - 55)
  else none

/-- Model of Go `hex.DecodeString`: the list of bytes decoded before the
first error, paired with `true` when no error occurred (`parseAddr`
ignores the error apart from logging it, so the decoded prefix is what
flows on). -/
def decodeHex : Str → List Nat × Bool
  | [] => ([], true)
  | [_] => ([], false)
  | a :: b :: rest =>
    match hexVal a, hexVal b with
    | some x, some y =>
      let p := decodeHex rest
      ((16 * x + y) :: p.1, p.2)
    | _, _ => ([], false)

/-- Decimal rendering of a natural number. -/
def natToStr (n : Nat) : Str := (toString n).toList

def hexDigitChar (n : Nat) : Char :=
  if n < 10 then Char.ofNat (48 + n) else Char.ofNat (87 + n)

/-- Lower-case hex rendering of a byte list (Go `net`'s `hexString`). -/
def hexStr : List Nat → Str
  | [] => []
  | b :: rest => hexDigitChar (b / 16 % 16) :: hexDigitChar (b % 16) :: hexStr rest

/-- Model of Go `net.IP.String()` on the byte lists `parseAddr` can
produce (length at most 4, since it decodes at most 8 hex characters):
empty gives `"<nil>"`, length 4 gives dotted decimal, any other short
length gives `"?"` plus the hex rendering.  (The 16-byte IPv6 branch of
the Go function is unreachable from `parseAddr` and is not modelled.) -/
def ipString : List Nat → Str
  | [] => "<nil>".toList
  | [a, b, c, d] =>
    natToStr a ++ '.' :: natToStr b ++ '.' :: natToStr c ++ '.' :: natToStr d
  | other => '?' :: hexStr other

def SOCKADDR_LENGTH : Nat := 34

/-- Model of `parseAddr` (parser.go:152-164).  Returns
`some (addr, logged)` where `logged` records whether the hex-decode
failure message was printed; `none` marks a Go runtime panic:
`saddr[0:4]` with `len(saddr) < 4`, or `saddr[8:16]` with
`len(saddr) < 16`. -/
def parseAddr (saddr : Str) : Option (Str × Bool) :=
  if saddr.length < 4 then none
  else if saddr.take 4 = "0200".toList then
    if saddr.length < 16 then none
    else
      let p := decodeHex ((saddr.drop 8).take 8)
      some (ipString p.1, !p.2)
  else some ([], false)

/-- Model of `AuditMessage` (parser.go:31-36).  The Go field `Type` is a
Lean keyword and is rendered `Typ`. -/
structure AuditMessage where
  Typ : Nat
  Data : Str
  Seq : Int
  AuditTime : Str
deriving DecidableEq, Repr

/-- Association list modelling a Go `map[string]string`. -/
abbrev AList := List (Str × Str)

/-- Go map lookup `m[k]` (the `ok` of the two-value form is `isSome`). -/
def alookup : AList → Str → Option Str
  | [], _ => none
  | (k0, v0) :: t, k => if k0 = k then some v0 else alookup t k

/-- Go map assignment `m[k] = v` (overwrites an existing key). -/
def aset : AList → Str → Str → AList
  | [], k, v => [(k, v)]
  | (k0, v0) :: t, k, v => if k0 = k then (k0, v) :: t else (k0, v0) :: aset t k v

/-- Model of `AuditMessageGroup` (parser.go:38-48).  `CompleteAfter` is a
wall-clock deadline consumed only by the external flush loop and is not
part of the embedding. -/
structure AuditMessageGroup where
  Seq : Int
  AuditTime : Str
  Msgs : List AuditMessage
  UidMap : AList
  DnsMap : AList
  Syscall : Str
  gotSaddr : Bool
  gotDNS : Bool
deriving DecidableEq, Repr

/-- The `saddr=` value extraction inlined in `mapDns`
(parser.go:122-135): first `saddr=` occurrence, value up to the next
space, or to end of text when that run is at most `SOCKADDR_LENGTH`. -/
def saddrExtract (data : Str) : Option Str :=
  match strIndex "saddr=".toList data with
  | none => none
  | some i =>
    let start := i + 6
    match charIndex ' ' (data.drop start) with
    | some e => some ((data.drop start).take e)
    | none =>
      let e := data.length - start
      if e > SOCKADDR_LENGTH then none
      else some ((data.drop start).take e)

/-- Model of `AuditMessageGroup.mapDns` (parser.go:117-150).  Returns
`some (updated group, resolver calls)` where the second component lists
the ip strings passed to `c.Get`; `none` marks a Go runtime panic
(inside `parseAddr`).  Note that `gotSaddr` is set only after a
successful `saddr=` extraction. -/
def mapDns (cGet : Str → Option Str) (g : AuditMessageGroup) (data : Str) :
    Option (AuditMessageGroup × List Str) :=
  match saddrExtract data with
  | none => some (g, [])
  | some saddr =>
    let g1 := { g with gotSaddr := true }
    match parseAddr saddr with
    | none => none
    | some ip =>
      match cGet ip.1 with
      | some host =>
        some ({ g1 with gotDNS := true, DnsMap := aset g1.DnsMap ip.1 host }, [ip.1])
      | none => some (g1, [ip.1])

/-- The insert-if-absent step at parser.go:191-194: `uid` is mapped
through the identity resolver only when the group's map does not
already contain it.  Returns the updated map and the resolver calls
made (none, or exactly the one for `uid`). -/
def uidStep (resolve : Str → Str) (m : AList) (uid : Str) : AList × List Str :=
  if (alookup m uid).isSome then (m, [])
  else (aset m uid (resolve uid), [uid])

/-- Loop body of `AuditMessageGroup.mapUids` (parser.go:167-205), with a
fuel argument that dominates the loop count (each iteration drops at
least 5 characters of `data`, so `data.length` fuel is ample; see
`mapUids`).  Returns the updated uid map and the list of uids passed to
the identity resolver (`getUsername`). -/
def mapUidsGo (resolve : Str → Str) : Nat → Str → AList → AList × List Str
  | 0, _, m => (m, [])
  | fuel + 1, data, m =>
    match strIndex "uid=".toList data with
    | none => (m, [])
    | some i =>
      let start := i + 4
      match charIndex ' ' (data.drop start) with
      | none =>
        let e := data.length - start
        if e > 5 then (m, [])
        else uidStep resolve m ((data.drop start).take e)
      | some e =>
        let step := uidStep resolve m ((data.drop start).take e)
        let next := start + e + 1
        if next < data.length then
          let r := mapUidsGo resolve fuel (data.drop next) step.1
          (r.1, step.2 ++ r.2)
        else step

/-- Model of `AuditMessageGroup.mapUids` (parser.go:167-205). -/
def mapUids (resolve : Str → Str) (data : Str) (m : AList) : AList × List Str :=
  mapUidsGo resolve data.length data m

/-- Model of `AuditMessageGroup.findSyscall` (parser.go:207-229); `old`
is the current `amg.Syscall` value, which is left unchanged when no
acceptable `syscall=` match is found.  The 5-character sanity bound is
applied only in the no-following-space branch. -/
def findSyscall (data : Str) (old : Str) : Str :=
  match strIndex "syscall=".toList data with
  | none => old
  | some i =>
    let start := i + 8
    match charIndex ' ' (data.drop start) with
    | some e => (data.drop start).take e
    | none =>
      let e := data.length - start
      if e > 5 then old
      else (data.drop start).take e

def SYSCALL : Nat := 1300
def CONFIG_CHANGE : Nat := 1305
def SOCKADDR : Nat := 1306
def CWD : Nat := 1307
def EXECVE : Nat := 1309

/-- Model of `AuditMessageGroup.AddMessage` (parser.go:100-114).
Returns `some (updated group, identity-resolver calls,
network-resolver calls)`; `none` marks a Go runtime panic inside
`mapDns`/`parseAddr`. -/
def AddMessage (resolve : Str → Str) (cGet : Str → Option Str)
    (g : AuditMessageGroup) (am : AuditMessage) :
    Option (AuditMessageGroup × List Str × List Str) :=
  let g0 := { g with Msgs := g.Msgs ++ [am] }
  if am.Typ = EXECVE ∨ am.Typ = CWD then some (g0, [], [])
  else if am.Typ = SOCKADDR then
    (mapDns cGet g0 am.Data).map (fun r => (r.1, [], r.2))
  else if am.Typ = SYSCALL then
    let g1 := { g0 with Syscall := findSyscall am.Data g0.Syscall }
    let r := mapUids resolve am.Data g1.UidMap
    some ({ g1 with UidMap := r.1 }, r.2, [])
  else
    let r := mapUids resolve am.Data g0.UidMap
    some ({ g0 with UidMap := r.1 }, r.2, [])

/-- Model of `NewAuditMessageGroup` (parser.go:51-64): fresh group with
the first message's sequence and timestamp, then `AddMessage` on it
(`CompleteAfter` is wall-clock state owned by the external flush path
and is not modelled). -/
def NewAuditMessageGroup (resolve : Str → Str) (cGet : Str → Option Str)
    (am : AuditMessage) : Option (AuditMessageGroup × List Str × List Str) :=
  AddMessage resolve cGet
    { Seq := am.Seq, AuditTime := am.AuditTime, Msgs := [], UidMap := [],
      DnsMap := [], Syscall := [], gotSaddr := false, gotDNS := false } am

/-- Modelled from the spec: the Group Correlator that routes messages to
groups is not under `src/` (only `parser.go` is); per §2 ("create-or-append
by sequence") and the §3 lifecycle ("mutated by every subsequent message
bearing the same sequence number"), a group is created from its first
message and every later `AddMessage` receives a message bearing the
group's own sequence number.  `Reachable` is the set of group states
that arise this way without hitting a modelled panic. -/
inductive Reachable (resolve : Str → Str) (cGet : Str → Option Str) :
    AuditMessageGroup → Prop
  | create (am : AuditMessage) (g : AuditMessageGroup)
      (ucs dcs : List Str)
      (h : NewAuditMessageGroup resolve cGet am = some (g, ucs, dcs)) :
      Reachable resolve cGet g
  | add (g : AuditMessageGroup) (am : AuditMessage) (g2 : AuditMessageGroup)
      (ucs dcs : List Str)
      (hr : Reachable resolve cGet g) (hs : am.Seq = g.Seq)
      (h : AddMessage resolve cGet g am = some (g2, ucs, dcs)) :
      Reachable resolve cGet g2

/-! Helper lemmas about the string and map primitives. -/

theorem take_len_app (l1 l2 : Str) : (l1 ++ l2).take l1.length = l1 := by
  induction l1 with
  | nil => simp
  | cons x t ih => simp [ih]

theorem drop_len_app (l1 l2 : Str) : (l1 ++ l2).drop l1.length = l2 := by
  induction l1 with
  | nil => simp
  | cons x t ih => simp [ih]

theorem charIndex_none_of_notMem (c : Char) (P : Str) (h : c ∉ P) :
    charIndex c P = none := by
  induction P with
  | nil => rfl
  | cons x t ih =>
    simp only [List.mem_cons, not_or] at h
    simp [charIndex, Ne.symm h.1, ih h.2]

theorem charIndex_first (c : Char) (P Q : Str) (h : c ∉ P) :
    charIndex c (P ++ c :: Q) = some P.length := by
  induction P with
  | nil => simp [charIndex]
  | cons x t ih =>
    simp only [List.mem_cons, not_or] at h
    simp [charIndex, Ne.symm h.1, ih h.2]

theorem strIndex_singleton_first (c : Char) (P Q : Str) (h : c ∉ P) :
    strIndex [c] (P ++ c :: Q) = some P.length := by
  induction P with
  | nil =>
    have hpre : [c] <+: c :: Q := ⟨Q, rfl⟩
    simp [strIndex, hpre]
  | cons x t ih =>
    simp only [List.mem_cons, not_or] at h
    have hnpre : ¬([c] <+: x :: (t ++ c :: Q)) := by
      intro hp
      rcases hp with ⟨s, hs⟩
      simp only [List.singleton_append, List.cons.injEq] at hs
      exact h.1 hs.1
    simp [strIndex, hnpre, ih h.2]

theorem alookup_aset_ne (m : AList) (k v k2 : Str) (h : k ≠ k2) :
    alookup (aset m k v) k2 = alookup m k2 := by
  induction m with
  | nil => simp [aset, alookup, h]
  | cons p t ih =>
    by_cases hk : p.1 = k
    · simp [aset, alookup, hk, h, ih]
    · simp only [aset, hk, if_false]
      by_cases hk2 : p.1 = k2 <;> simp [alookup, hk2, ih]

theorem alookup_aset_self (m : AList) (k v : Str) :
    alookup (aset m k v) k = some v := by
  induction m with
  | nil => simp [aset, alookup]
  | cons p t ih =>
    by_cases hk : p.1 = k
    · simp [aset, alookup, hk]
    · simp [aset, alookup, hk, ih]

theorem aset_length_le (m : AList) (k v : Str) :
    (aset m k v).length ≤ m.length + 1 := by
  induction m with
  | nil => simp [aset]
  | cons p t ih =>
    by_cases hk : p.1 = k
    · simp [aset, hk]
    · simp only [aset, hk, if_false, List.length_cons]
      omega

theorem digitsValAux_all_isDigit (s : Str) :
    ∀ acc n, digitsValAux s acc = some n → ∀ c ∈ s, c.isDigit = true := by
  induction s with
  | nil => intro acc n _ c hc; cases hc
  | cons x t ih =>
    intro acc n h c hc
    by_cases hx : x.isDigit
    · rcases List.mem_cons.mp hc with hcx | hct
      · exact hcx ▸ hx
      · exact ih _ n (by simpa [digitsValAux, hx] using h) c hct
    · simp [digitsValAux, hx] at h

theorem digitsVal_all_isDigit (s : Str) (n : Nat) (h : digitsVal s = some n) :
    ∀ c ∈ s, c.isDigit = true := by
  cases s with
  | nil => simp [digitsVal] at h
  | cons x t =>
    intro c hc
    by_cases hx : x.isDigit
    · rcases List.mem_cons.mp hc with hcx | hct
      · exact hcx ▸ hx
      · exact digitsValAux_all_isDigit t _ n (by simpa [digitsVal, hx] using h) c hct
    · simp [digitsVal, hx] at h

theorem atoi_of_digits (s : Str) (n : Nat) (h : digitsVal s = some n)
    (hn : (n : Int) ≤ INT64_MAX) : atoi s = (n : Int) := by
  cases s with
  | nil => simp [digitsVal] at h
  | cons c t =>
    have hc : c.isDigit = true := digitsVal_all_isDigit _ n h c (List.mem_cons_self c t)
    have hneg : c ≠ '-' := by rintro rfl; simp [Char.isDigit] at hc
    have hpos : c ≠ '+' := by rintro rfl; simp [Char.isDigit] at hc
    simp [atoi, hneg, hpos, h, min_eq_left hn]

theorem decodeHex_fail_len : ∀ l : Str, (decodeHex l).2 = false →
    2 * (decodeHex l).1.length < l.length
  | [] => by simp [decodeHex]
  | [_] => by simp [decodeHex]
  | a :: b :: rest => by
    intro h
    cases hva : hexVal a with
    | none =>
      simp only [decodeHex, hva] at h ⊢
      simp [List.length_cons]
    | some x =>
      cases hvb : hexVal b with
      | none =>
        simp only [decodeHex, hva, hvb] at h ⊢
        simp [List.length_cons]
      | some y =>
        simp only [decodeHex, hva, hvb] at h ⊢
        have := decodeHex_fail_len rest h
        simp only [List.length_cons]
        omega

theorem drop_len_add (l1 l2 : Str) (k : Nat) :
    (l1 ++ l2).drop (l1.length + k) = l2.drop k := by
  induction l1 with
  | nil => simp
  | cons x t ih =>
    simp only [List.cons_append, List.length_cons]
    rw [show t.length + 1 + k = (t.length + k) + 1 from by omega]
    rw [List.drop_succ_cons]
    exact ih

/-- C2: for every input that begins with a well-formed header
`audit(<ts>:<seq>):` (so its first `)` is at offset at least 7),
`parseAuditHeader` returns exactly the timestamp text `<ts>` and the
integer `<seq>`, and the payload becomes the input with the header and
the trailing three characters `): ` removed.  Well-formedness: the
timestamp contains no `)` and no `:`, and the sequence field is a
non-empty digit string of value `n` small enough that Go's 64-bit
`Atoi` does not saturate. -/
theorem c2_parseAuditHeader (ts seqD rest : Str) (n : Nat)
    (h1 : ')' ∉ ts) (h2 : ':' ∉ ts)
    (h3 : digitsVal seqD = some n) (h4 : (n : Int) ≤ INT64_MAX) :
    parseAuditHeader
      ("audit(".toList ++ ts ++ ':' :: seqD ++ ')' :: ':' :: ' ' :: rest) =
      some (ts, (n : Int), rest) := by
  have hd : ∀ c ∈ seqD, c.isDigit = true := digitsVal_all_isDigit seqD n h3
  have hdP : ')' ∉ ("audit(".toList ++ ts ++ ':' :: seqD) := by
    intro hc
    rcases List.mem_append.mp hc with hAt | hC
    · rcases List.mem_append.mp hAt with hA | ht
      · exact absurd hA (by decide)
      · exact h1 ht
    · rcases List.mem_cons.mp hC with hcol | hsd
      · exact absurd hcol (by decide)
      · exact absurd (hd _ hsd) (by decide)
  have hcolAts : ':' ∉ ("audit(".toList ++ ts) := by
    intro hc
    rcases List.mem_append.mp hc with hA | ht
    · exact absurd hA (by decide)
    · exact h2 ht
  have hgroup : "audit(".toList ++ ts ++ ':' :: seqD ++ ')' :: ':' :: ' ' :: rest
      = ("audit(".toList ++ ts ++ ':' :: seqD) ++ ')' :: ':' :: ' ' :: rest := by
    simp [List.append_assoc]
  rw [hgroup]
  unfold parseAuditHeader
  rw [strIndex_singleton_first ')' ("audit(".toList ++ ts ++ ':' :: seqD) _ hdP]
  dsimp only
  rw [if_neg (show ¬ (("audit(".toList ++ ts ++ ':' :: seqD).length < HEADER_MIN_LENGTH)
        from by
      unfold HEADER_MIN_LENGTH
      simp [List.length_append, show ("audit(".toList).length = 6 from rfl]
      omega)]
  rw [take_len_app]
  rw [if_pos (show ("audit(".toList ++ ts ++ ':' :: seqD).take HEADER_START_POS
        = "audit(".toList from rfl)]
  rw [charIndex_first ':' ("audit(".toList ++ ts) seqD hcolAts]
  dsimp only
  rw [if_neg (show ¬ (("audit(".toList ++ ts).length < HEADER_START_POS) from by
      unfold HEADER_START_POS
      simp [List.length_append, show ("audit(".toList).length = 6 from rfl])]
  rw [if_neg (show ¬ ((("audit(".toList ++ ts ++ ':' :: seqD) ++ ')' :: ':' :: ' ' :: rest).length
        < ("audit(".toList ++ ts ++ ':' :: seqD).length + 3) from by
      simp [List.length_append]
      omega)]
  rw [show ("audit(".toList ++ ts ++ ':' :: seqD).drop HEADER_START_POS
        = ts ++ ':' :: seqD from rfl]
  rw [show ("audit(".toList ++ ts).length - HEADER_START_POS = ts.length from by
      unfold HEADER_START_POS
      simp [List.length_append, show ("audit(".toList).length = 6 from rfl]]
  rw [take_len_app]
  rw [show ("audit(".toList ++ ts ++ ':' :: seqD).drop (("audit(".toList ++ ts).length + 1)
        = seqD from by rw [drop_len_add]; simp]
  rw [atoi_of_digits seqD n h3 h4]
  rw [show (("audit(".toList ++ ts ++ ':' :: seqD) ++ ')' :: ':' :: ' ' :: rest).drop
        (("audit(".toList ++ ts ++ ':' :: seqD).length + 3) = rest from by
      rw [drop_len_add]
      simp]

/-- Witness for C2 at the concrete header
"audit(1480621530.858:55): " with payload "arch=c000003e". -/
theorem c2_parseAuditHeader_witness :
    parseAuditHeader
      ("audit(".toList ++ "1480621530.858".toList ++ ':' :: "55".toList ++
        ')' :: ':' :: ' ' :: "arch=c000003e".toList) =
      some ("1480621530.858".toList, (55 : Int), "arch=c000003e".toList) :=
  c2_parseAuditHeader "1480621530.858".toList "55".toList "arch=c000003e".toList 55
    (by decide) (by decide) (by decide) (by decide)

/-- C1: the claim that every core operation is total and never raises a
fatal condition is contradicted by the code.  `parseAuditHeader` on
data `"audit(12345)"` (first `)` at offset 11, header with no `:`
separator) evaluates `header[6:sep]` with `sep = -1` and panics with a
slice-bounds error (the missing check noted by the TODO at
parser.go:87); `AddMessage` on a SOCKADDR message `"saddr=ab x"`
reaches `parseAddr` with the 2-character value `"ab"`, whose
`saddr[0:4]` likewise panics.  The model marks both panics as `none`. -/
theorem c1_core_ops_panic :
    parseAuditHeader "audit(12345)".toList = none ∧
    AddMessage (fun u => u) (fun _ => none)
      { Seq := 0, AuditTime := [], Msgs := [], UidMap := [], DnsMap := [],
        Syscall := [], gotSaddr := false, gotDNS := false }
      { Typ := 1306, Data := "saddr=ab x".toList, Seq := 0, AuditTime := [] } =
      none := by
  exact ⟨by decide, by decide⟩

/-- C3 counterexample: on the hex input of the claim the decoder reads
the four bytes at hex offset [8,16), `"0100007F"`, in order, producing
`"1.0.0.127"` and not `"127.0.0.1"`. -/
theorem c3_counterexample :
    parseAddr "0200007F0100007F0000000000000000".toList =
      some ("1.0.0.127".toList, false) ∧
    "1.0.0.127".toList ≠ "127.0.0.1".toList := by
  exact ⟨by decide, by decide⟩

/-- C3 amended: the socket-address decoder maps the hex string
"0200007F0100007F0000000000000000" to the dotted-decimal address
"1.0.0.127" (the bytes at hex offset [8,16) rendered in order), and for
every hex input of length at least 4 whose first 4 characters differ
from "0200" it returns the empty string. -/
theorem c3_amended :
    parseAddr "0200007F0100007F0000000000000000".toList =
      some ("1.0.0.127".toList, false) ∧
    ∀ s : Str, 4 ≤ s.length → s.take 4 ≠ "0200".toList →
      parseAddr s = some ([], false) := by
  refine ⟨by decide, ?_⟩
  intro s hlen hfam
  unfold parseAddr
  rw [if_neg (by omega), if_neg hfam]

/-- Witness for the amended C3, at the concrete non-IPv4 input
"0300AAAA". -/
theorem c3_amended_witness :
    parseAddr "0300AAAA".toList = some ([], false) :=
  c3_amended.2 "0300AAAA".toList (by decide) (by decide)

/-- C4: uid extraction captures every `uid=` substring occurrence of
"uid=1000 euid=1000 suid=0" (the `euid=` and `suid=` fields match as
plain substrings); starting from an empty map it produces exactly the
keys "1000" and "0", resolving each exactly once. -/
theorem c4_mapUids_occurrences (resolve : Str → Str) :
    mapUids resolve "uid=1000 euid=1000 suid=0".toList [] =
      ([("1000".toList, resolve "1000".toList), ("0".toList, resolve "0".toList)],
       ["1000".toList, "0".toList]) := rfl

/-- C7 counterexample: on the "0200"-prefixed input
"0200007FZZZZZZZZ" the hex decode of "ZZZZZZZZ" fails, the failure is
logged, and the decoder returns "<nil>" (the Go rendering of a
zero-length IP), which is not the empty string the claim requires. -/
theorem c7_counterexample :
    parseAddr "0200007FZZZZZZZZ".toList = some ("<nil>".toList, true) ∧
    "<nil>".toList ≠ ([] : Str) := by
  exact ⟨by decide, by decide⟩

/-- C7 amended: for every "0200"-prefixed input long enough not to
panic, when hex decoding of the address bytes fails the failure is
logged and the decoder returns the non-empty Go rendering of the
partially decoded bytes ("<nil>", or "?" followed by hex) rather than
the empty string, and processing continues (no fatal condition, the
group merely lacks DNS enrichment). -/
theorem c7_amended (s : Str) (hfam : s.take 4 = "0200".toList)
    (hlen : 16 ≤ s.length)
    (hfail : (decodeHex ((s.drop 8).take 8)).2 = false) :
    ∃ addr : Str, parseAddr s = some (addr, true) ∧ addr ≠ [] := by
  have hb := decodeHex_fail_len _ hfail
  have hlen8 : ((s.drop 8).take 8).length = 8 := by
    simp [List.length_take, List.length_drop]
    omega
  rw [hlen8] at hb
  refine ⟨ipString (decodeHex ((s.drop 8).take 8)).1, ?_, ?_⟩
  · unfold parseAddr
    rw [if_neg (by omega), if_pos hfam, if_neg (by omega)]
    simp [hfail]
  · rcases hbs : (decodeHex ((s.drop 8).take 8)).1 with
      _ | ⟨x, _ | ⟨y, _ | ⟨z, _ | ⟨w, t⟩⟩⟩⟩
    · decide
    · show ('?' :: hexStr [x]) ≠ []
      simp
    · show ('?' :: hexStr [x, y]) ≠ []
      simp
    · show ('?' :: hexStr [x, y, z]) ≠ []
      simp
    · rw [hbs] at hb
      simp only [List.length_cons] at hb
      omega

/-- Witness for the amended C7, at the concrete input
"0200007FZZZZZZZZ". -/
theorem c7_amended_witness :
    ∃ addr : Str, parseAddr "0200007FZZZZZZZZ".toList = some (addr, true) ∧
      addr ≠ [] :=
  c7_amended "0200007FZZZZZZZZ".toList (by decide) (by decide) (by decide)

/-- C8 counterexample: on a SYSCALL message whose `syscall=` token is
followed by a space the 5-character sanity bound is not applied: the
7-character token "1234567" is accepted into the group's syscall-id
field rather than rejected. -/
theorem c8_counterexample :
    (AddMessage (fun u => u) (fun _ => none)
      { Seq := 0, AuditTime := [], Msgs := [], UidMap := [], DnsMap := [],
        Syscall := [], gotSaddr := false, gotDNS := false }
      { Typ := 1300, Data := "syscall=1234567 a=b".toList, Seq := 0, AuditTime := [] }).map
        (fun r => r.1.Syscall) = some "1234567".toList ∧
    5 < ("1234567".toList).length := by
  exact ⟨by decide, by decide⟩

/-- C8 amended: syscall-id extraction returns exactly the token
following the first `syscall=` up to the next space, whatever its
length; the 5-character sanity bound applies only when no space
follows, in which case a run to end of text longer than 5 characters is
rejected and the field is left unchanged. -/
theorem c8_amended (a t r old : Str) (hsp : ' ' ∉ t) :
    (strIndex "syscall=".toList (a ++ "syscall=".toList ++ t ++ ' ' :: r) = some a.length →
      findSyscall (a ++ "syscall=".toList ++ t ++ ' ' :: r) old = t) ∧
    (strIndex "syscall=".toList (a ++ "syscall=".toList ++ t) = some a.length →
      (t.length ≤ 5 → findSyscall (a ++ "syscall=".toList ++ t) old = t) ∧
      (5 < t.length → findSyscall (a ++ "syscall=".toList ++ t) old = old)) := by
  have hlen8 : ("syscall=".toList).length = 8 := rfl
  constructor
  · intro hidx
    unfold findSyscall
    rw [hidx]
    dsimp only
    have hre : a ++ "syscall=".toList ++ t ++ ' ' :: r
        = (a ++ "syscall=".toList) ++ (t ++ ' ' :: r) := by
      simp [List.append_assoc]
    have hlen : a.length + 8 = (a ++ "syscall=".toList).length := by
      simp [List.length_append]
    rw [hre, hlen, drop_len_app]
    rw [charIndex_first ' ' t r hsp]
    dsimp only
    rw [take_len_app]
  · intro hidx
    unfold findSyscall
    rw [hidx]
    dsimp only
    have hlen : a.length + 8 = (a ++ "syscall=".toList).length := by
      simp [List.length_append]
    rw [hlen, drop_len_app]
    rw [charIndex_none_of_notMem ' ' t hsp]
    dsimp only
    have he : ((a ++ "syscall=".toList) ++ t).length - (a ++ "syscall=".toList).length
        = t.length := by
      simp [List.length_append]
      omega
    constructor
    · intro hle
      rw [if_neg (by omega)]
      rw [he, List.take_length]
    · intro hgt
      rw [if_pos (by omega)]

/-- Witness for the amended C8: a spaced 2-character token is returned
exactly, and an unspaced 6-character token is rejected leaving the
field empty. -/
theorem c8_amended_witness :
    findSyscall "a=b syscall=59 uid=0".toList [] = "59".toList ∧
    findSyscall "syscall=123456".toList [] = [] := by
  constructor
  · exact (c8_amended "a=b ".toList "59".toList "uid=0".toList [] (by decide)).1 (by decide)
  · exact ((c8_amended [] "123456".toList [] [] (by decide)).2 (by decide)).2 (by decide)

/-- Case characterization of `mapDns`: either no `saddr=` value is
extracted and the group is untouched with no resolver call, or exactly
one value is extracted from the first occurrence, `gotSaddr` is set,
one resolver call is made, and `gotDNS`/`DnsMap` change exactly on a
successful resolution. -/
theorem mapDns_spec (cGet : Str → Option Str) (g : AuditMessageGroup) (data : Str)
    (g2 : AuditMessageGroup) (cs : List Str)
    (h : mapDns cGet g data = some (g2, cs)) :
    (saddrExtract data = none ∧ g2 = g ∧ cs = []) ∨
    (∃ s ip lg, saddrExtract data = some s ∧ parseAddr s = some (ip, lg) ∧ cs = [ip] ∧
      ((cGet ip = none ∧ g2 = { g with gotSaddr := true }) ∨
       (∃ host, cGet ip = some host ∧
         g2 = { g with gotSaddr := true, gotDNS := true,
                       DnsMap := aset g.DnsMap ip host }))) := by
  unfold mapDns at h
  cases hext : saddrExtract data with
  | none =>
    rw [hext] at h
    simp only [Option.some.injEq, Prod.mk.injEq] at h
    exact Or.inl ⟨rfl, h.1.symm, h.2.symm⟩
  | some s =>
    rw [hext] at h
    dsimp only at h
    cases hpa : parseAddr s with
    | none => rw [hpa] at h; exact absurd h (by simp)
    | some ip =>
      rw [hpa] at h
      dsimp only at h
      cases hget : cGet ip.1 with
      | none =>
        rw [hget] at h
        simp only [Option.some.injEq, Prod.mk.injEq] at h
        exact Or.inr ⟨s, ip.1, ip.2, rfl, by rw [hpa], h.2.symm,
          Or.inl ⟨hget, h.1.symm⟩⟩
      | some host =>
        rw [hget] at h
        simp only [Option.some.injEq, Prod.mk.injEq] at h
        exact Or.inr ⟨s, ip.1, ip.2, rfl, by rw [hpa], h.2.symm,
          Or.inr ⟨host, hget, h.1.symm⟩⟩
/-- `AddMessage` on an EXECVE or CWD message only appends the message. -/
theorem AddMessage_execve_cwd (resolve : Str → Str) (cGet : Str → Option Str)
    (g : AuditMessageGroup) (am : AuditMessage)
    (h1 : am.Typ = EXECVE ∨ am.Typ = CWD) :
    AddMessage resolve cGet g am = some ({ g with Msgs := g.Msgs ++ [am] }, [], []) := by
  unfold AddMessage
  rw [if_pos h1]

/-- `AddMessage` on a SOCKADDR message appends the message and runs
`mapDns`. -/
theorem AddMessage_sockaddr (resolve : Str → Str) (cGet : Str → Option Str)
    (g : AuditMessageGroup) (am : AuditMessage) (ht : am.Typ = SOCKADDR) :
    AddMessage resolve cGet g am =
      (mapDns cGet { g with Msgs := g.Msgs ++ [am] } am.Data).map
        (fun r => (r.1, [], r.2)) := by
  unfold AddMessage
  rw [ht]
  rw [if_neg (by decide : ¬ (SOCKADDR = EXECVE ∨ SOCKADDR = CWD))]
  rw [if_pos rfl]

/-- `AddMessage` on a SYSCALL message appends the message, runs
`findSyscall`, and then the uid scan. -/
theorem AddMessage_syscall (resolve : Str → Str) (cGet : Str → Option Str)
    (g : AuditMessageGroup) (am : AuditMessage) (ht : am.Typ = SYSCALL) :
    AddMessage resolve cGet g am =
      some ({ g with Msgs := g.Msgs ++ [am],
                     Syscall := findSyscall am.Data g.Syscall,
                     UidMap := (mapUids resolve am.Data g.UidMap).1 },
            (mapUids resolve am.Data g.UidMap).2, []) := by
  unfold AddMessage
  rw [ht]
  rw [if_neg (by decide : ¬ (SYSCALL = EXECVE ∨ SYSCALL = CWD))]
  rw [if_neg (by decide : ¬ (SYSCALL = SOCKADDR))]
  rw [if_pos rfl]

/-- `AddMessage` on any other message type appends the message and runs
the uid scan only. -/
theorem AddMessage_default (resolve : Str → Str) (cGet : Str → Option Str)
    (g : AuditMessageGroup) (am : AuditMessage)
    (h1 : ¬ (am.Typ = EXECVE ∨ am.Typ = CWD)) (h2 : am.Typ ≠ SOCKADDR)
    (h3 : am.Typ ≠ SYSCALL) :
    AddMessage resolve cGet g am =
      some ({ g with Msgs := g.Msgs ++ [am],
                     UidMap := (mapUids resolve am.Data g.UidMap).1 },
            (mapUids resolve am.Data g.UidMap).2, []) := by
  unfold AddMessage
  rw [if_neg h1, if_neg h2, if_neg h3]

/-- Frame lemma: a non-panicking `AddMessage` never changes the group
sequence number and appends exactly the incoming message. -/
theorem AddMessage_seq_msgs (resolve : Str → Str) (cGet : Str → Option Str)
    (g : AuditMessageGroup) (am : AuditMessage) (g2 : AuditMessageGroup)
    (ucs dcs : List Str)
    (h : AddMessage resolve cGet g am = some (g2, ucs, dcs)) :
    g2.Seq = g.Seq ∧ g2.Msgs = g.Msgs ++ [am] := by
  by_cases h1 : am.Typ = EXECVE ∨ am.Typ = CWD
  · rw [AddMessage_execve_cwd resolve cGet g am h1] at h
    simp only [Option.some.injEq, Prod.mk.injEq] at h
    rw [← h.1]
    exact ⟨rfl, rfl⟩
  · by_cases h2 : am.Typ = SOCKADDR
    · rw [AddMessage_sockaddr resolve cGet g am h2] at h
      cases hm : mapDns cGet { g with Msgs := g.Msgs ++ [am] } am.Data with
      | none => rw [hm] at h; exact absurd h (by simp)
      | some r =>
        rw [hm] at h
        simp only [Option.map_some', Option.some.injEq, Prod.mk.injEq] at h
        rcases mapDns_spec cGet _ am.Data r.1 r.2 hm with
          ⟨-, hg, -⟩ | ⟨s, ip, lg, -, -, -, hbr⟩
        · rw [← h.1, hg]
          exact ⟨rfl, rfl⟩
        · rcases hbr with ⟨-, hg⟩ | ⟨host, -, hg⟩
          · rw [← h.1, hg]
            exact ⟨rfl, rfl⟩
          · rw [← h.1, hg]
            exact ⟨rfl, rfl⟩
    · by_cases h3 : am.Typ = SYSCALL
      · rw [AddMessage_syscall resolve cGet g am h3] at h
        simp only [Option.some.injEq, Prod.mk.injEq] at h
        rw [← h.1]
        exact ⟨rfl, rfl⟩
      · rw [AddMessage_default resolve cGet g am h1 h2 h3] at h
        simp only [Option.some.injEq, Prod.mk.injEq] at h
        rw [← h.1]
        exact ⟨rfl, rfl⟩
/-- C9: in every reachable group state (created from a first message
and extended by the correlator with messages bearing the group
sequence number), every stored message's sequence number equals the
group's. -/
theorem c9_all_msgs_share_seq (resolve : Str → Str) (cGet : Str → Option Str)
    (g : AuditMessageGroup) (hr : Reachable resolve cGet g) :
    ∀ m ∈ g.Msgs, m.Seq = g.Seq := by
  induction hr with
  | create am g0 ucs dcs h =>
    have hf := AddMessage_seq_msgs resolve cGet _ am g0 ucs dcs h
    intro m hm
    rw [hf.2] at hm
    simp only [List.nil_append, List.mem_singleton] at hm
    rw [hm, hf.1]
  | add g0 am g2 ucs dcs hr0 hs h ih =>
    have hf := AddMessage_seq_msgs resolve cGet g0 am g2 ucs dcs h
    intro m hm
    rw [hf.2] at hm
    rcases List.mem_append.mp hm with hm0 | hm1
    · rw [hf.1]
      exact ih m hm0
    · rw [List.mem_singleton] at hm1
      rw [hm1, hf.1]
      exact hs

/-- Witness for C9 on a concrete one-message group with sequence 7. -/
theorem c9_witness :
    (⟨1309, "abc".toList, 7, "t".toList⟩ : AuditMessage).Seq = (7 : Int) := by
  have h := c9_all_msgs_share_seq (fun _ => []) (fun _ => none)
    { Seq := 7, AuditTime := "t".toList,
      Msgs := [⟨1309, "abc".toList, 7, "t".toList⟩], UidMap := [], DnsMap := [],
      Syscall := [], gotSaddr := false, gotDNS := false }
    (Reachable.create ⟨1309, "abc".toList, 7, "t".toList⟩ _ [] [] (by decide))
  exact h _ (by simp)

/-- C10: one `AddMessage` call on a SOCKADDR message makes no identity
lookup, at most one network-resolver lookup, adds at most one dnsMap
entry, and any resolved ip comes from the value of the first `saddr=`
occurrence in the message text. -/
theorem c10_first_saddr_only (resolve : Str → Str) (cGet : Str → Option Str)
    (g : AuditMessageGroup) (am : AuditMessage) (g2 : AuditMessageGroup)
    (ucs dcs : List Str) (ht : am.Typ = SOCKADDR)
    (h : AddMessage resolve cGet g am = some (g2, ucs, dcs)) :
    ucs = [] ∧ dcs.length ≤ 1 ∧ g2.DnsMap.length ≤ g.DnsMap.length + 1 ∧
    (∀ ip ∈ dcs, ∃ s lg, saddrExtract am.Data = some s ∧
      parseAddr s = some (ip, lg)) := by
  rw [AddMessage_sockaddr resolve cGet g am ht] at h
  cases hm : mapDns cGet { g with Msgs := g.Msgs ++ [am] } am.Data with
  | none => rw [hm] at h; exact absurd h (by simp)
  | some r =>
    rw [hm] at h
    simp only [Option.map_some', Option.some.injEq, Prod.mk.injEq] at h
    obtain ⟨hg2, hucs, hdcs⟩ := h
    rcases mapDns_spec cGet _ am.Data r.1 r.2 hm with
      ⟨hext, hg, hcs⟩ | ⟨s, ip, lg, hext, hpa, hcs, hbr⟩
    · refine ⟨hucs.symm, ?_, ?_, ?_⟩
      · rw [← hdcs, hcs]
        simp
      · rw [← hg2, hg]
        simp
      · intro i hi
        rw [← hdcs, hcs] at hi
        cases hi
    · refine ⟨hucs.symm, ?_, ?_, ?_⟩
      · rw [← hdcs, hcs]
        simp
      · rcases hbr with ⟨-, hg⟩ | ⟨host, -, hg⟩
        · rw [← hg2, hg]
          simp
        · rw [← hg2, hg]
          exact aset_length_le g.DnsMap ip host
      · intro i hi
        rw [← hdcs, hcs] at hi
        rw [List.mem_singleton] at hi
        exact ⟨s, lg, hext, by rw [hi]; exact hpa⟩
/-- The insert-if-absent step never disturbs an existing key and never
re-resolves it. -/
theorem uidStep_lookup (resolve : Str → Str) (m : AList) (uid k : Str)
    (hk : (alookup m k).isSome) :
    alookup (uidStep resolve m uid).1 k = alookup m k ∧
    k ∉ (uidStep resolve m uid).2 := by
  by_cases h : (alookup m uid).isSome
  · simp [uidStep, h]
  · have hne : uid ≠ k := fun he => h (he ▸ hk)
    simp [uidStep, h, alookup_aset_ne m uid (resolve uid) k hne, Ne.symm hne]

/-- The uid scan loop preserves the mapping of any key already present
and never passes it to the resolver again, for any fuel. -/
theorem mapUidsGo_no_recall (resolve : Str → Str) (fuel : Nat) :
    ∀ (data : Str) (m : AList) (k : Str), (alookup m k).isSome →
      alookup (mapUidsGo resolve fuel data m).1 k = alookup m k ∧
      k ∉ (mapUidsGo resolve fuel data m).2 := by
  induction fuel with
  | zero =>
    intro data m k hk
    simp [mapUidsGo]
  | succ fuel ih =>
    intro data m k hk
    cases hidx : strIndex "uid=".toList data with
    | none =>
      simp only [mapUidsGo]
      rw [hidx]
      simp
    | some i =>
      cases hsp : charIndex ' ' (data.drop (i + 4)) with
      | none =>
        have hstep := uidStep_lookup resolve m
          ((data.drop (i + 4)).take (data.length - (i + 4))) k hk
        simp only [mapUidsGo]
        rw [hidx]
        dsimp only
        rw [hsp]
        dsimp only
        by_cases hb : 5 < data.length - (i + 4)
        · rw [if_pos hb]
          simp
        · rw [if_neg hb]
          exact hstep
      | some e =>
        have hstep := uidStep_lookup resolve m ((data.drop (i + 4)).take e) k hk
        simp only [mapUidsGo]
        rw [hidx]
        dsimp only
        rw [hsp]
        dsimp only
        by_cases hnext : i + 4 + e + 1 < data.length
        · rw [if_pos hnext]
          have hk2 : (alookup (uidStep resolve m ((data.drop (i + 4)).take e)).1 k).isSome := by
            rw [hstep.1]
            exact hk
          have hrec := ih (data.drop (i + 4 + e + 1)) _ k hk2
          refine ⟨hrec.1.trans hstep.1, ?_⟩
          intro hmem
          rcases List.mem_append.mp hmem with hm1 | hm2
          · exact hstep.2 hm1
          · exact hrec.2 hm2
        · rw [if_neg hnext]
          exact hstep
/-- C5: once a uid key is present in a group's uidMap, any further
`AddMessage` (of any type) leaves its mapped username unchanged and
performs no identity-resolver call for it. -/
theorem c5_uid_resolved_once (resolve : Str → Str) (cGet : Str → Option Str)
    (g : AuditMessageGroup) (am : AuditMessage) (g2 : AuditMessageGroup)
    (ucs dcs : List Str) (k : Str)
    (hk : (alookup g.UidMap k).isSome)
    (h : AddMessage resolve cGet g am = some (g2, ucs, dcs)) :
    alookup g2.UidMap k = alookup g.UidMap k ∧ k ∉ ucs := by
  by_cases h1 : am.Typ = EXECVE ∨ am.Typ = CWD
  · rw [AddMessage_execve_cwd resolve cGet g am h1] at h
    simp only [Option.some.injEq, Prod.mk.injEq] at h
    rw [← h.1, ← h.2.1]
    exact ⟨rfl, by simp⟩
  · by_cases h2 : am.Typ = SOCKADDR
    · rw [AddMessage_sockaddr resolve cGet g am h2] at h
      cases hm : mapDns cGet { g with Msgs := g.Msgs ++ [am] } am.Data with
      | none => rw [hm] at h; exact absurd h (by simp)
      | some r =>
        rw [hm] at h
        simp only [Option.map_some', Option.some.injEq, Prod.mk.injEq] at h
        obtain ⟨hg2, hucs, hdcs⟩ := h
        rcases mapDns_spec cGet _ am.Data r.1 r.2 hm with
          ⟨-, hg, -⟩ | ⟨s, ip, lg, -, -, -, hbr⟩
        · rw [← hg2, hg, ← hucs]
          exact ⟨rfl, by simp⟩
        · rcases hbr with ⟨-, hg⟩ | ⟨host, -, hg⟩
          · rw [← hg2, hg, ← hucs]
            exact ⟨rfl, by simp⟩
          · rw [← hg2, hg, ← hucs]
            exact ⟨rfl, by simp⟩
    · by_cases h3 : am.Typ = SYSCALL
      · rw [AddMessage_syscall resolve cGet g am h3] at h
        simp only [Option.some.injEq, Prod.mk.injEq] at h
        rw [← h.1, ← h.2.1]
        exact mapUidsGo_no_recall resolve am.Data.length am.Data g.UidMap k hk
      · rw [AddMessage_default resolve cGet g am h1 h2 h3] at h
        simp only [Option.some.injEq, Prod.mk.injEq] at h
        rw [← h.1, ← h.2.1]
        exact mapUidsGo_no_recall resolve am.Data.length am.Data g.UidMap k hk

/-- Witness for C5: re-processing "uid=1000" against a group that
already maps "1000" keeps the mapping and makes no resolver call. -/
theorem c5_witness :
    alookup [("1000".toList, "alice".toList)] "1000".toList =
      alookup [("1000".toList, "alice".toList)] "1000".toList ∧
    "1000".toList ∉ ([] : List Str) :=
  c5_uid_resolved_once (fun _ => "bob".toList) (fun _ => none)
    { Seq := 0, AuditTime := [], Msgs := [], UidMap := [("1000".toList, "alice".toList)],
      DnsMap := [], Syscall := [], gotSaddr := false, gotDNS := false }
    { Typ := 1305, Data := "uid=1000".toList, Seq := 0, AuditTime := [] }
    { Seq := 0, AuditTime := [],
      Msgs := [{ Typ := 1305, Data := "uid=1000".toList, Seq := 0, AuditTime := [] }],
      UidMap := [("1000".toList, "alice".toList)],
      DnsMap := [], Syscall := [], gotSaddr := false, gotDNS := false }
    [] [] "1000".toList (by decide) (by decide)

/-- C6 amended: for a SOCKADDR message from which a `saddr=` value is
actually extracted, `sawSocketAddress` is set, while `sawDnsResolution`
is set and a dnsMap entry recorded exactly when the network resolution
succeeds.  (The original claim's "unconditionally" fails: see the
counterexample.) -/
theorem c6_amended (resolve : Str → Str) (cGet : Str → Option Str)
    (g : AuditMessageGroup) (am : AuditMessage) (g2 : AuditMessageGroup)
    (ucs dcs : List Str)
    (ht : am.Typ = SOCKADDR)
    (hs : (saddrExtract am.Data).isSome)
    (h : AddMessage resolve cGet g am = some (g2, ucs, dcs)) :
    g2.gotSaddr = true ∧
    (∀ ip ∈ dcs, cGet ip = none → g2.gotDNS = g.gotDNS ∧ g2.DnsMap = g.DnsMap) ∧
    (∀ ip ∈ dcs, ∀ host, cGet ip = some host →
      g2.gotDNS = true ∧ alookup g2.DnsMap ip = some host) := by
  rw [AddMessage_sockaddr resolve cGet g am ht] at h
  cases hm : mapDns cGet { g with Msgs := g.Msgs ++ [am] } am.Data with
  | none => rw [hm] at h; exact absurd h (by simp)
  | some r =>
    rw [hm] at h
    simp only [Option.map_some', Option.some.injEq, Prod.mk.injEq] at h
    obtain ⟨hg2, hucs, hdcs⟩ := h
    rcases mapDns_spec cGet _ am.Data r.1 r.2 hm with
      ⟨hext, -, -⟩ | ⟨s, ip, lg, hext, hpa, hcs, hbr⟩
    · rw [hext] at hs
      exact absurd hs (by simp)
    · rcases hbr with ⟨hget, hg⟩ | ⟨host, hget, hg⟩
      · refine ⟨by rw [← hg2, hg], ?_, ?_⟩
        · intro i hi hgi
          rw [← hg2, hg]
          exact ⟨rfl, rfl⟩
        · intro i hi host0 hgi
          rw [← hdcs, hcs, List.mem_singleton] at hi
          rw [hi, hget] at hgi
          exact absurd hgi (by simp)
      · refine ⟨by rw [← hg2, hg], ?_, ?_⟩
        · intro i hi hgi
          rw [← hdcs, hcs, List.mem_singleton] at hi
          rw [hi, hget] at hgi
          exact absurd hgi (by simp)
        · intro i hi host0 hgi
          rw [← hdcs, hcs, List.mem_singleton] at hi
          rw [hi] at hgi
          rw [hget] at hgi
          injection hgi with hh
          rw [← hg2, hg, hi]
          refine ⟨rfl, ?_⟩
          rw [← hh]
          exact alookup_aset_self g.DnsMap ip host
/-- C6 counterexample: a SOCKADDR message with no `saddr=` key returns
early from `mapDns`, leaving `sawSocketAddress` false, so the flag is
not set unconditionally for every SOCKADDR message. -/
theorem c6_counterexample :
    (AddMessage (fun u => u) (fun _ => none)
      { Seq := 0, AuditTime := [], Msgs := [], UidMap := [], DnsMap := [],
        Syscall := [], gotSaddr := false, gotDNS := false }
      { Typ := 1306, Data := "hello".toList, Seq := 0, AuditTime := [] }).map
      (fun r => r.1.gotSaddr) = some false := by
  decide

/-- Witness for the amended C6: the spec scenario of a SOCKADDR message
carrying the hex of 127.0.0.1 against a resolver mapping it to
"localhost". -/
theorem c6_amended_witness :
    ({ Seq := 5, AuditTime := "t".toList,
       Msgs := [{ Typ := 1306, Data := "saddr=0200007F7F0000010000000000000000".toList,
                  Seq := 5, AuditTime := "t".toList }],
       UidMap := [], DnsMap := [("127.0.0.1".toList, "localhost".toList)],
       Syscall := [], gotSaddr := true, gotDNS := true } : AuditMessageGroup).gotSaddr = true ∧
    ({ Seq := 5, AuditTime := "t".toList,
       Msgs := [{ Typ := 1306, Data := "saddr=0200007F7F0000010000000000000000".toList,
                  Seq := 5, AuditTime := "t".toList }],
       UidMap := [], DnsMap := [("127.0.0.1".toList, "localhost".toList)],
       Syscall := [], gotSaddr := true, gotDNS := true } : AuditMessageGroup).gotDNS = true ∧
    alookup [("127.0.0.1".toList, "localhost".toList)] "127.0.0.1".toList =
      some "localhost".toList := by
  have h := c6_amended (fun u => u)
    (fun ip => if ip = "127.0.0.1".toList then some "localhost".toList else none)
    { Seq := 5, AuditTime := "t".toList, Msgs := [], UidMap := [], DnsMap := [],
      Syscall := [], gotSaddr := false, gotDNS := false }
    { Typ := 1306, Data := "saddr=0200007F7F0000010000000000000000".toList,
      Seq := 5, AuditTime := "t".toList }
    { Seq := 5, AuditTime := "t".toList,
      Msgs := [{ Typ := 1306, Data := "saddr=0200007F7F0000010000000000000000".toList,
                 Seq := 5, AuditTime := "t".toList }],
      UidMap := [], DnsMap := [("127.0.0.1".toList, "localhost".toList)],
      Syscall := [], gotSaddr := true, gotDNS := true }
    [] ["127.0.0.1".toList] rfl (by decide) (by decide)
  exact ⟨h.1, (h.2.2 "127.0.0.1".toList (by simp) "localhost".toList (by decide)).1,
         (h.2.2 "127.0.0.1".toList (by simp) "localhost".toList (by decide)).2⟩
/-- Witness for C10 on a SOCKADDR message containing two `saddr=`
occurrences. -/
theorem c10_witness :
    ([] : List Str) = [] ∧ ([([] : Str)]).length ≤ 1 ∧
    ([((([] : Str), "h".toList))] : AList).length ≤ ([] : AList).length + 1 ∧
    ∃ s lg, saddrExtract "saddr=0300AB saddr=0400CD".toList = some s ∧
      parseAddr s = some (([] : Str), lg) := by
  have h := c10_first_saddr_only (fun u => u) (fun _ => some "h".toList)
    { Seq := 0, AuditTime := [], Msgs := [], UidMap := [], DnsMap := [],
      Syscall := [], gotSaddr := false, gotDNS := false }
    { Typ := 1306, Data := "saddr=0300AB saddr=0400CD".toList, Seq := 0, AuditTime := [] }
    { Seq := 0, AuditTime := [],
      Msgs := [{ Typ := 1306, Data := "saddr=0300AB saddr=0400CD".toList,
                 Seq := 0, AuditTime := [] }],
      UidMap := [], DnsMap := [(([] : Str), "h".toList)],
      Syscall := [], gotSaddr := true, gotDNS := true }
    [] [([] : Str)] rfl (by decide)
  exact ⟨h.1, h.2.1, h.2.2.1, h.2.2.2 [] (by simp)⟩
end GoAudit
